import Mathlib

/-!
# Verification of the asset-catalog paginator

Shallow embedding of `buildFlatProps`, `buildNamespaceProps` and
`filterAssetsByNamespace` from the asset catalog table component, together
with the JavaScript primitives they rely on: string comparison (UTF-16
code-unit lexicographic order), `JSON.stringify` on arrays of strings,
`Array.prototype.findIndex`, `Array.prototype.slice`, default
`Array.prototype.sort`, and `Set`-based deduplication.
-/

/-! ## JavaScript string ordering

JavaScript compares strings by their UTF-16 code-unit sequences.  A Lean
`Char` is a Unicode scalar value; characters below `0x10000` are one code
unit, the rest are a surrogate pair. -/

/-- The UTF-16 code units of a character. -/
def charUnits (c : Char) : List Nat :=
  if c.val.toNat < 0x10000 then [c.val.toNat]
  else [0xD800 + (c.val.toNat - 0x10000) / 0x400, 0xDC00 + (c.val.toNat - 0x10000) % 0x400]

/-- UTF-16 code units of a character list. -/
def unitsOfChars : List Char → List Nat
  | [] => []
  | c :: cs => charUnits c ++ unitsOfChars cs

/-- UTF-16 code units of a string. -/
def strUnits (s : String) : List Nat :=
  unitsOfChars s.data

/-- Lexicographic order on code-unit sequences (the order JavaScript `<`
uses on strings). -/
def unitsLt : List Nat → List Nat → Bool
  | [], [] => false
  | [], _ :: _ => true
  | _ :: _, [] => false
  | a :: u, b :: v => if a < b then true else if a = b then unitsLt u v else false

/-- JavaScript `a < b` on strings. -/
def jsStrLt (a b : String) : Bool :=
  unitsLt (strUnits a) (strUnits b)

/-- JavaScript `a <= b` on strings: the order is total, so `a <= b`
is the negation of `b < a`. -/
def jsStrLe (a b : String) : Bool :=
  !(jsStrLt b a)

/-! ## `JSON.stringify` on arrays of strings -/

/-- Lowercase hexadecimal digit. -/
def hexDigit (n : Nat) : Char :=
  Char.ofNat (if n < 10 then 48 + n else 87 + n)

/-- The escape of one character inside a JSON string literal, following
`JSON.stringify`: quote and backslash get a backslash escape, the control
characters `\b \t \n \f \r` get their short escapes, the remaining
characters below `0x20` get a `\u00XX` escape, everything else is kept. -/
def escapeChar (c : Char) : List Char :=
  if c = '"' then ['\\', '"']
  else if c = '\\' then ['\\', '\\']
  else if c = Char.ofNat 8 then ['\\', 'b']
  else if c = Char.ofNat 9 then ['\\', 't']
  else if c = Char.ofNat 10 then ['\\', 'n']
  else if c = Char.ofNat 12 then ['\\', 'f']
  else if c = Char.ofNat 13 then ['\\', 'r']
  else if c.val.toNat < 0x20 then
    ['\\', 'u', '0', '0', hexDigit (c.val.toNat / 16), hexDigit (c.val.toNat % 16)]
  else [c]

/-- Escape every character of a list. -/
def escapeChars : List Char → List Char
  | [] => []
  | c :: cs => escapeChar c ++ escapeChars cs

/-- `JSON.stringify` of a single string value. -/
def quoteString (s : String) : String :=
  "\"" ++ String.mk (escapeChars s.data) ++ "\""

/-- The comma-separated items of `JSON.stringify` of an array of strings. -/
def jsonItems : List String → String
  | [] => ""
  | [s] => quoteString s
  | s :: rest => quoteString s ++ "," ++ jsonItems rest

/-- `JSON.stringify` of an array of strings: `[` plus the quoted items
joined by `,` plus `]`. -/
def jsonStringify (xs : List String) : String :=
  "[" ++ jsonItems xs ++ "]"

/-! ## JavaScript array primitives -/

/-- `Array.prototype.findIndex`: the index of the first element satisfying
the predicate, `-1` if there is none. -/
def jsFindIndex {α : Type} (p : α → Bool) : List α → Int
  | [] => -1
  | x :: xs =>
    if p x then 0
    else
      let r := jsFindIndex p xs
      if r = -1 then -1 else r + 1

/-- `Array.prototype.slice(start, stop)`: negative indices count from the
end, then both are clamped to `[0, length]`. -/
def jsSlice {α : Type} (xs : List α) (start stop : Int) : List α :=
  let len : Int := xs.length
  let s := if start < 0 then max (len + start) 0 else min start len
  let e := if stop < 0 then max (len + stop) 0 else min stop len
  (xs.drop s.toNat).take (e.toNat - s.toNat)

/-- Array indexing `xs[i]` (only used by the paginator at indices proved
in range). -/
def jsGetD {α : Type} [Inhabited α] (xs : List α) (i : Int) : α :=
  xs.getD i.toNat default

/-! ## Data model -/

/-- An asset key: an ordered sequence of path segments. -/
structure AssetKey where
  path : List String
deriving DecidableEq, Repr, Inhabited

/-- An asset: an opaque record carrying at least an id and a key. -/
structure Asset where
  id : String
  key : AssetKey
deriving DecidableEq, Repr, Inhabited

/-- The result record of the paginator. -/
structure PageProps where
  displayed : List Asset
  displayPathForAsset : Asset → List String
  prevCursor : Option String
  nextCursor : Option String

/-- `const PAGE_SIZE = 50`. -/
def PAGE_SIZE : Nat := 50

/-! ## The paginator, flat mode

Translation of `buildFlatProps`:
```
const cursorValue = (asset) => JSON.stringify([...prefixPath, ...asset.key.path]);
const cursorIndex = cursor ? assets.findIndex((ns) => cursor <= cursorValue(ns)) : 0;
const prevPageIndex = Math.max(0, cursorIndex - PAGE_SIZE);
const nextPageIndex = cursorIndex + PAGE_SIZE;
return {
  displayed: assets.slice(cursorIndex, cursorIndex + PAGE_SIZE),
  displayPathForAsset: (asset) => asset.key.path,
  prevCursor: cursorIndex > 0 ? cursorValue(assets[prevPageIndex]) : undefined,
  nextCursor: nextPageIndex < assets.length ? cursorValue(assets[nextPageIndex]) : undefined,
};
```
An empty string is falsy in JavaScript, so `cursor ? e : 0` yields `0`
both for an undefined cursor and for the cursor `""`. -/

/-- `cursorValue` of flat mode. -/
def cursorValueFlat (prefixPath : List String) (asset : Asset) : String :=
  jsonStringify (prefixPath ++ asset.key.path)

/-- The `cursorIndex` of flat mode. -/
def flatCursorIndex (assets : List Asset) (prefixPath : List String)
    (cursor : Option String) : Int :=
  match cursor with
  | none => 0
  | some c =>
    if c = "" then 0
    else jsFindIndex (fun ns => jsStrLe c (cursorValueFlat prefixPath ns)) assets

/-- `buildFlatProps`. -/
def buildFlatProps (assets : List Asset) (prefixPath : List String)
    (cursor : Option String) : PageProps :=
  let cursorValue := cursorValueFlat prefixPath
  let cursorIndex := flatCursorIndex assets prefixPath cursor
  let prevPageIndex := max 0 (cursorIndex - (PAGE_SIZE : Int))
  let nextPageIndex := cursorIndex + (PAGE_SIZE : Int)
  { displayed := jsSlice assets cursorIndex (cursorIndex + (PAGE_SIZE : Int))
    displayPathForAsset := fun asset => asset.key.path
    prevCursor :=
      if cursorIndex > 0 then some (cursorValue (jsGetD assets prevPageIndex)) else none
    nextCursor :=
      if nextPageIndex < (assets.length : Int) then some (cursorValue (jsGetD assets nextPageIndex))
      else none }

/-! ## The paginator, namespace-grouped mode

Translation of `buildNamespaceProps` and `filterAssetsByNamespace`:
```
const namespaceForAsset = (asset) =>
  asset.key.path.slice(prefixPath.length, prefixPath.length + 1);
const namespaces = Array.from(
  new Set(assets.map((asset) => JSON.stringify(namespaceForAsset(asset)))),
).map((x) => JSON.parse(x)).sort();
const cursorValue = (ns) => JSON.stringify([...prefixPath, ...ns]);
const cursorIndex = cursor ? namespaces.findIndex((ns) => cursor <= cursorValue(ns)) : 0;
if (cursorIndex === -1) { return {displayed: [], prevCursor: undefined, nextCursor: undefined, ...}; }
const slice = namespaces.slice(cursorIndex, cursorIndex + PAGE_SIZE);
...
```
`new Set` deduplicates the serialized namespaces keeping first occurrences,
and `JSON.parse` of a `JSON.stringify` output is the identity, so the
deduplication is modelled directly on the namespace values, keyed by their
serialization.  The default `Array.prototype.sort` is a stable sort whose
default comparator compares `String(x)` (for an array of strings: the
segments joined by `,`) under the code-unit string order. -/

/-- `namespaceForAsset`. -/
def namespaceForAsset (prefixPath : List String) (asset : Asset) : List String :=
  jsSlice asset.key.path (prefixPath.length : Int) ((prefixPath.length : Int) + 1)

/-- `new Set` over serialized namespaces: keep each namespace whose
serialization has not been seen yet. -/
def nsDedup (seen : List String) : List (List String) → List (List String)
  | [] => []
  | x :: xs =>
    if jsonStringify x ∈ seen then nsDedup seen xs
    else x :: nsDedup (jsonStringify x :: seen) xs

/-- `String(ns)` for an array of strings: the elements joined by `,`. -/
def nsToString (ns : List String) : String :=
  String.intercalate "," ns

/-- The default-sort comparator keeps `x` before `y` when
`String(x) <= String(y)`. -/
def jsSortLe (x y : List String) : Bool :=
  jsStrLe (nsToString x) (nsToString y)

/-- Stable insertion used to model the default sort: the new element goes
after every element that compares less-or-equal to it. -/
def sortInsert (x : List String) : List (List String) → List (List String)
  | [] => [x]
  | y :: ys => if jsSortLe y x then y :: sortInsert x ys else x :: y :: ys

/-- Model of default `Array.prototype.sort` (stable, default comparator). -/
def jsSort (xs : List (List String)) : List (List String) :=
  xs.foldl (fun acc x => sortInsert x acc) []

/-- The deduplicated, sorted namespace list of `buildNamespaceProps`. -/
def namespacesOf (assets : List Asset) (prefixPath : List String) : List (List String) :=
  jsSort (nsDedup [] (assets.map (namespaceForAsset prefixPath)))

/-- `cursorValue` of namespace mode. -/
def cursorValueNs (prefixPath : List String) (ns : List String) : String :=
  jsonStringify (prefixPath ++ ns)

/-- The `cursorIndex` of namespace mode. -/
def nsCursorIndex (namespaces : List (List String)) (prefixPath : List String)
    (cursor : Option String) : Int :=
  match cursor with
  | none => 0
  | some c =>
    if c = "" then 0
    else jsFindIndex (fun ns => jsStrLe c (cursorValueNs prefixPath ns)) namespaces

/-- `path.every((part, i) => part === asset.key.path[i])`: out-of-range
positions read `undefined`, which is never `===` to a string. -/
def segsMatch : List String → List String → Bool
  | [], _ => true
  | _ :: _, [] => false
  | p :: ps, a :: as => p == a && segsMatch ps as

/-- `filterAssetsByNamespace`. -/
def filterAssetsByNamespace (assets : List Asset) (paths : List (List String)) : List Asset :=
  assets.filter fun asset => paths.any fun path => segsMatch path asset.key.path

/-- `buildNamespaceProps`. -/
def buildNamespaceProps (assets : List Asset) (prefixPath : List String)
    (cursor : Option String) : PageProps :=
  let namespaces := namespacesOf assets prefixPath
  let cursorValue := cursorValueNs prefixPath
  let cursorIndex := nsCursorIndex namespaces prefixPath cursor
  if cursorIndex = -1 then
    { displayed := []
      displayPathForAsset := namespaceForAsset prefixPath
      prevCursor := none
      nextCursor := none }
  else
    let slice := jsSlice namespaces cursorIndex (cursorIndex + (PAGE_SIZE : Int))
    let prevPageIndex := max 0 (cursorIndex - (PAGE_SIZE : Int))
    let prevCursor :=
      if cursorIndex ≠ 0 then some (cursorValue (jsGetD namespaces prevPageIndex)) else none
    let nextPageIndex := cursorIndex + (PAGE_SIZE : Int)
    let nextCursor :=
      if (namespaces.length : Int) > nextPageIndex then
        some (cursorValue (jsGetD namespaces nextPageIndex))
      else none
    { displayed := filterAssetsByNamespace assets (slice.map fun ns => prefixPath ++ ns)
      displayPathForAsset := namespaceForAsset prefixPath
      prevCursor := prevCursor
      nextCursor := nextCursor }

/-- The window of namespaces selected by `buildNamespaceProps` (the
`slice`, empty in the `cursorIndex === -1` branch). -/
def nsWindow (assets : List Asset) (prefixPath : List String)
    (cursor : Option String) : List (List String) :=
  let namespaces := namespacesOf assets prefixPath
  let cursorIndex := nsCursorIndex namespaces prefixPath cursor
  if cursorIndex = -1 then []
  else jsSlice namespaces cursorIndex (cursorIndex + (PAGE_SIZE : Int))

/-! ## Definitions taken from the specification's words -/

/-- From the spec's words: the start index of flat mode is `0` for an
undefined cursor, and otherwise the first index `i` such that
`cursor <= cursorValue(assets[i])` under string ordering. -/
def specFlatStart (assets : List Asset) (prefixPath : List String)
    (cursor : Option String) (s : Nat) : Prop :=
  match cursor with
  | none => s = 0
  | some c =>
    s < assets.length ∧
    jsStrLe c (cursorValueFlat prefixPath (assets.getD s default)) = true ∧
    ∀ j < s, jsStrLe c (cursorValueFlat prefixPath (assets.getD j default)) = false

/-- From the spec's words: the lexicographic (sorted) order on path
arrays, segments compared by the JavaScript string ordering (code-unit
comparison, with code-unit equality as the tie test). -/
def specPathLexLt : List String → List String → Bool
  | [], [] => false
  | [], _ :: _ => true
  | _ :: _, [] => false
  | s :: ps, t :: qs =>
    if jsStrLt s t then true
    else if strUnits s = strUnits t then specPathLexLt ps qs
    else false

/-! ## Basic facts about the code-unit order -/

theorem unitsLt_irrefl : ∀ u, unitsLt u u = false := by
  intro u
  induction u with
  | nil => rfl
  | cons a u ih => simp [unitsLt, ih]

theorem unitsLt_asymm : ∀ u v, unitsLt u v = true → unitsLt v u = false := by
  intro u
  induction u with
  | nil => intro v _; cases v <;> rfl
  | cons a u ih =>
    intro v h
    cases v with
    | nil => simp [unitsLt] at h
    | cons b v =>
      simp only [unitsLt] at h ⊢
      rcases Nat.lt_trichotomy a b with hab | hab | hab
      · simp [hab, Nat.lt_asymm hab, Nat.ne_of_gt hab]
      · subst hab; simp_all [ih v]
      · simp [Nat.lt_asymm hab, Nat.ne_of_gt hab, Nat.ne_of_lt hab] at h

theorem unitsLt_trans : ∀ u v w, unitsLt u v = true → unitsLt v w = true → unitsLt u w = true := by
  intro u
  induction u with
  | nil =>
    intro v w h1 h2
    cases v with
    | nil => simp [unitsLt] at h1
    | cons b v => cases w with
      | nil => simp [unitsLt] at h2
      | cons c w => rfl
  | cons a u ih =>
    intro v w h1 h2
    cases v with
    | nil => simp [unitsLt] at h1
    | cons b v =>
      cases w with
      | nil => simp [unitsLt] at h2
      | cons c w =>
        simp only [unitsLt] at h1 h2 ⊢
        rcases Nat.lt_trichotomy a b with hab | hab | hab
        · rcases Nat.lt_trichotomy b c with hbc | hbc | hbc
          · simp [Nat.lt_trans hab hbc]
          · subst hbc; simp [hab]
          · simp [Nat.lt_asymm hbc, Nat.ne_of_gt hbc] at h2
        · subst hab
          rcases Nat.lt_trichotomy a c with hac | hac | hac
          · simp [hac]
          · subst hac
            simp_all
            exact ih v w h1 h2
          · simp [Nat.lt_asymm hac, Nat.ne_of_gt hac] at h2
        · simp [Nat.lt_asymm hab, Nat.ne_of_gt hab, Nat.ne_of_lt hab] at h1

theorem unitsLt_conn : ∀ u v, unitsLt u v = false → unitsLt v u = false → u = v := by
  intro u
  induction u with
  | nil => intro v h1 _; cases v with
    | nil => rfl
    | cons b v => simp [unitsLt] at h1
  | cons a u ih =>
    intro v h1 h2
    cases v with
    | nil => simp [unitsLt] at h2
    | cons b v =>
      simp only [unitsLt] at h1 h2
      rcases Nat.lt_trichotomy a b with hab | hab | hab
      · simp [hab] at h1
      · subst hab
        simp_all
        exact ih v h1 h2
      · simp [hab] at h2

theorem jsStrLe_empty_left (s : String) : jsStrLe "" s = true := by
  have : strUnits "" = [] := rfl
  simp only [jsStrLe, jsStrLt, this]
  cases h : unitsLt (strUnits s) [] with
  | false => rfl
  | true => cases hs : strUnits s with
    | nil => rw [hs] at h; simp [unitsLt] at h
    | cons a u => rw [hs] at h; simp [unitsLt] at h

theorem jsStrLt_irrefl (s : String) : jsStrLt s s = false := by
  simp [jsStrLt, unitsLt_irrefl]

theorem jsStrLe_refl (s : String) : jsStrLe s s = true := by
  simp [jsStrLe, jsStrLt_irrefl]

/-! ## Facts about `jsFindIndex` -/

theorem jsFindIndex_neg {α : Type} (p : α → Bool) (xs : List α)
    (h : ∀ x ∈ xs, p x = false) : jsFindIndex p xs = -1 := by
  induction xs with
  | nil => rfl
  | cons x xs ih =>
    have hx : p x = false := h x (List.mem_cons_self x xs)
    have hrest : jsFindIndex p xs = -1 := ih fun y hy => h y (List.mem_cons_of_mem x hy)
    simp [jsFindIndex, hx, hrest]

theorem jsFindIndex_ge {α : Type} (p : α → Bool) (xs : List α) :
    -1 ≤ jsFindIndex p xs := by
  induction xs with
  | nil => simp [jsFindIndex]
  | cons x xs ih =>
    simp only [jsFindIndex]
    by_cases hx : p x = true
    · simp [hx]
    · simp only [Bool.not_eq_true] at hx
      simp only [hx, Bool.false_eq_true, if_false]
      by_cases hr : jsFindIndex p xs = -1
      · simp [hr]
      · simp only [hr, if_false]
        omega

theorem jsFindIndex_lt_length {α : Type} (p : α → Bool) (xs : List α) :
    jsFindIndex p xs < (xs.length : Int) := by
  induction xs with
  | nil => simp [jsFindIndex]
  | cons x xs ih =>
    simp only [jsFindIndex, List.length_cons]
    by_cases hx : p x = true
    · simp [hx]
    · simp only [Bool.not_eq_true] at hx
      simp only [hx, Bool.false_eq_true, if_false]
      by_cases hr : jsFindIndex p xs = -1
      · simp [hr]; omega
      · simp only [hr, if_false]
        push_cast
        omega

theorem jsFindIndex_eq_of {α : Type} [Inhabited α] (p : α → Bool) (xs : List α) (s : Nat)
    (hs : s < xs.length) (hp : p (xs.getD s default) = true)
    (hmin : ∀ j < s, p (xs.getD j default) = false) :
    jsFindIndex p xs = (s : Int) := by
  induction xs generalizing s with
  | nil => simp at hs
  | cons x xs ih =>
    cases s with
    | zero =>
      have hx : p x = true := hp
      simp [jsFindIndex, hx]
    | succ s =>
      have hx : p x = false := hmin 0 (Nat.succ_pos s)
      have hs' : s < xs.length := by simpa using hs
      have hp' : p (xs.getD s default) = true := hp
      have hmin' : ∀ j < s, p (xs.getD j default) = false := by
        intro j hj
        exact hmin (j + 1) (Nat.succ_lt_succ hj)
      have hrest := ih s hs' hp' hmin'
      have hne : jsFindIndex p xs ≠ -1 := by
        rw [hrest]; omega
      simp [jsFindIndex, hx, hrest, hne]

/-! ## Facts about `jsSlice` -/

theorem jsSlice_natCast {α : Type} (xs : List α) (s k : Nat) :
    jsSlice xs (s : Int) ((s : Int) + (k : Int)) = (xs.drop s).take k := by
  simp only [jsSlice]
  have h1 : ¬ ((s : Int) < 0) := by omega
  have h2 : ¬ ((s : Int) + (k : Int) < 0) := by omega
  simp only [h1, if_false, h2]
  by_cases hsl : s ≤ xs.length
  · have hmin1 : min (s : Int) (xs.length : Int) = (s : Int) := by omega
    rw [hmin1]
    by_cases hke : s + k ≤ xs.length
    · have hmin2 : min ((s : Int) + (k : Int)) (xs.length : Int) = ((s + k : Nat) : Int) := by
        push_cast; omega
      rw [hmin2]
      simp only [Int.toNat_natCast]
      congr 1
      omega
    · have hmin2 : min ((s : Int) + (k : Int)) (xs.length : Int) = (xs.length : Int) := by omega
      rw [hmin2]
      simp only [Int.toNat_natCast]
      have hlen : (xs.drop s).length = xs.length - s := List.length_drop s xs
      rw [List.take_of_length_le, List.take_of_length_le] <;> omega
  · have hmin1 : min (s : Int) (xs.length : Int) = (xs.length : Int) := by omega
    have hmin2 : min ((s : Int) + (k : Int)) (xs.length : Int) = (xs.length : Int) := by omega
    rw [hmin1, hmin2]
    simp only [Int.toNat_natCast]
    rw [List.drop_of_length_le (le_refl _), List.drop_of_length_le (by omega)]
    simp

/-! ## Small facts about the serialization -/

theorem jsonStringify_ne_empty (xs : List String) : jsonStringify xs ≠ "" := by
  intro h
  have hdata : (jsonStringify xs).data = [] := by rw [h]
  simp [jsonStringify, String.data_append] at hdata

/-! ## Claim C3: namespace mode, cursor past the end -/

/-- C3: in namespace-grouped mode, if a cursor is supplied and no
namespace's `cursorValue` is `>=` the cursor under the search predicate,
the page is empty and both cursors are undefined. -/
theorem namespace_cursor_past_end (assets : List Asset) (prefixPath : List String) (c : String)
    (h : ∀ ns ∈ namespacesOf assets prefixPath, jsStrLe c (cursorValueNs prefixPath ns) = false) :
    (buildNamespaceProps assets prefixPath (some c)).displayed = [] ∧
    (buildNamespaceProps assets prefixPath (some c)).prevCursor = none ∧
    (buildNamespaceProps assets prefixPath (some c)).nextCursor = none := by
  by_cases hc : c = ""
  · subst hc
    have hns : namespacesOf assets prefixPath = [] := by
      cases hns : namespacesOf assets prefixPath with
      | nil => rfl
      | cons ns rest =>
        have hmem : ns ∈ namespacesOf assets prefixPath := by
          rw [hns]; exact List.mem_cons_self ns rest
        have := h ns hmem
        rw [jsStrLe_empty_left] at this
        cases this
    refine ⟨?_, ?_, ?_⟩ <;>
      simp [buildNamespaceProps, hns, nsCursorIndex, jsSlice, filterAssetsByNamespace]
  · have hfi : jsFindIndex (fun ns => jsStrLe c (cursorValueNs prefixPath ns))
        (namespacesOf assets prefixPath) = -1 :=
      jsFindIndex_neg _ _ (fun x hx => h x hx)
    have hidx : nsCursorIndex (namespacesOf assets prefixPath) prefixPath (some c) = -1 := by
      simp [nsCursorIndex, hc, hfi]
    simp [buildNamespaceProps, hidx]

/-- Witness for C3 at a concrete input: one asset with key `["a"]` and the
cursor `"z"`, which is greater than every serialized namespace. -/
theorem namespace_cursor_past_end_witness :
    (∀ ns ∈ namespacesOf [{ id := "1", key := { path := ["a"] } }] [],
      jsStrLe "z" (cursorValueNs [] ns) = false) ∧
    ((buildNamespaceProps [{ id := "1", key := { path := ["a"] } }] [] (some "z")).displayed = [] ∧
     (buildNamespaceProps [{ id := "1", key := { path := ["a"] } }] [] (some "z")).prevCursor = none ∧
     (buildNamespaceProps [{ id := "1", key := { path := ["a"] } }] [] (some "z")).nextCursor = none) :=
  ⟨by decide, namespace_cursor_past_end _ _ _ (by decide)⟩

/-! ## Claim C10: determinism / purity -/

/-- C10: two calls with identical argument tuples produce identical
output, in both modes, including agreement of `displayPathForAsset` on
every asset. -/
theorem paginate_pure (assets assets' : List Asset) (prefixPath prefixPath' : List String)
    (cursor cursor' : Option String)
    (h1 : assets = assets') (h2 : prefixPath = prefixPath') (h3 : cursor = cursor') :
    buildFlatProps assets prefixPath cursor = buildFlatProps assets' prefixPath' cursor' ∧
    buildNamespaceProps assets prefixPath cursor = buildNamespaceProps assets' prefixPath' cursor' ∧
    (∀ a, (buildFlatProps assets prefixPath cursor).displayPathForAsset a =
      (buildFlatProps assets' prefixPath' cursor').displayPathForAsset a) ∧
    (∀ a, (buildNamespaceProps assets prefixPath cursor).displayPathForAsset a =
      (buildNamespaceProps assets' prefixPath' cursor').displayPathForAsset a) := by
  subst h1; subst h2; subst h3
  exact ⟨rfl, rfl, fun _ => rfl, fun _ => rfl⟩

/-- Witness for C10 at a concrete argument tuple. -/
theorem paginate_pure_witness :
    buildFlatProps [{ id := "1", key := { path := ["a"] } }] [] none =
      buildFlatProps [{ id := "1", key := { path := ["a"] } }] [] none ∧
    buildNamespaceProps [{ id := "1", key := { path := ["a"] } }] [] none =
      buildNamespaceProps [{ id := "1", key := { path := ["a"] } }] [] none ∧
    (∀ a, (buildFlatProps [{ id := "1", key := { path := ["a"] } }] [] none).displayPathForAsset a =
      (buildFlatProps [{ id := "1", key := { path := ["a"] } }] [] none).displayPathForAsset a) ∧
    (∀ a, (buildNamespaceProps [{ id := "1", key := { path := ["a"] } }] [] none).displayPathForAsset a =
      (buildNamespaceProps [{ id := "1", key := { path := ["a"] } }] [] none).displayPathForAsset a) :=
  paginate_pure _ _ _ _ _ _ rfl rfl rfl

/-! ## Counterexamples -/

/-- Counterexample to C4 as stated: `["a"]` precedes `["a","b"]` in the
lexicographic order of path arrays, but its serialization `["a"]` is not
below `["a","b"]` under string ordering (`]` sorts above `,`). -/
theorem serialization_order_cex :
    specPathLexLt ["a"] ["a", "b"] = true ∧
    jsStrLt (jsonStringify ["a"]) (jsonStringify ["a", "b"]) = false :=
  ⟨by decide, by decide⟩

/-- Counterexample to C5 as stated: for assets with keys `["a"]` and
`["a!"]` the code produces the namespace list `[["a"], ["a!"]]` (default
sort on the comma-joined strings), although under the serialization-based
string ordering `["a!"]` sorts strictly below `["a"]`. -/
theorem namespace_sort_cex :
    namespacesOf [{ id := "1", key := { path := ["a"] } },
      { id := "2", key := { path := ["a!"] } }] [] = [["a"], ["a!"]] ∧
    jsStrLt (cursorValueNs [] ["a!"]) (cursorValueNs [] ["a"]) = true ∧
    ¬ (namespacesOf [{ id := "1", key := { path := ["a"] } },
        { id := "2", key := { path := ["a!"] } }] []).Pairwise
      (fun x y => jsStrLe (cursorValueNs [] x) (cursorValueNs [] y) = true) :=
  ⟨by decide, by decide, by decide⟩

/-- Counterexample to C6 as stated: two assets (`length <= PAGE_SIZE`)
with a supplied cursor pointing at the second asset give a *defined*
`prevCursor`. -/
theorem small_collection_cursor_cex :
    [{ id := "1", key := { path := ["a"] } },
     ({ id := "2", key := { path := ["b"] } } : Asset)].length ≤ PAGE_SIZE ∧
    (buildFlatProps [{ id := "1", key := { path := ["a"] } },
      { id := "2", key := { path := ["b"] } }] [] (some "[\"b\"]")).prevCursor = some "[\"a\"]" :=
  ⟨by decide, by decide⟩

/-! ## Evaluating `buildFlatProps` at a non-negative cursor index -/

theorem toNat_max_zero (x : Int) : (max 0 x).toNat = x.toNat := by
  rcases le_total x 0 with h | h
  · rw [max_eq_left h]; omega
  · rw [max_eq_right h]

theorem buildFlatProps_displayed_of (assets : List Asset) (prefixPath : List String)
    (cursor : Option String) (s : Nat)
    (hidx : flatCursorIndex assets prefixPath cursor = (s : Int)) :
    (buildFlatProps assets prefixPath cursor).displayed = (assets.drop s).take PAGE_SIZE := by
  simp only [buildFlatProps, hidx]
  exact jsSlice_natCast assets s PAGE_SIZE

theorem buildFlatProps_prev_of (assets : List Asset) (prefixPath : List String)
    (cursor : Option String) (s : Nat)
    (hidx : flatCursorIndex assets prefixPath cursor = (s : Int)) :
    (buildFlatProps assets prefixPath cursor).prevCursor =
      (if 0 < s then some (cursorValueFlat prefixPath (assets.getD (s - PAGE_SIZE) default))
       else none) := by
  simp only [buildFlatProps, hidx]
  by_cases h0 : 0 < s
  · have hgt : ((s : Int) > 0) := by omega
    have harg : (max 0 ((s : Int) - (PAGE_SIZE : Int))).toNat = s - PAGE_SIZE := by
      rw [toNat_max_zero]; omega
    simp only [hgt, if_pos, if_true, h0, jsGetD, harg]
  · have hgt : ¬ ((s : Int) > 0) := by omega
    simp [hgt, h0]

theorem buildFlatProps_next_of (assets : List Asset) (prefixPath : List String)
    (cursor : Option String) (s : Nat)
    (hidx : flatCursorIndex assets prefixPath cursor = (s : Int)) :
    (buildFlatProps assets prefixPath cursor).nextCursor =
      (if s + PAGE_SIZE < assets.length then
        some (cursorValueFlat prefixPath (assets.getD (s + PAGE_SIZE) default))
       else none) := by
  simp only [buildFlatProps, hidx]
  by_cases h0 : s + PAGE_SIZE < assets.length
  · have hlt : ((s : Int) + (PAGE_SIZE : Int) < (assets.length : Int)) := by omega
    have harg : ((s : Int) + (PAGE_SIZE : Int)).toNat = s + PAGE_SIZE := by omega
    simp only [hlt, if_true, h0, jsGetD, harg]
  · have hlt : ¬ ((s : Int) + (PAGE_SIZE : Int) < (assets.length : Int)) := by omega
    simp [hlt, h0]

/-! ## Claim C1: the flat-mode contract -/

/-- C1: in flat mode, with the start index characterized as in the spec
(0 for an undefined cursor, else the first index whose `cursorValue` is
`>=` the cursor), the displayed page is `assets[startIndex :
startIndex+PAGE_SIZE]`, `prevCursor` is defined iff `startIndex > 0` and
equals `cursorValue(assets[max(0, startIndex-PAGE_SIZE)])`, and
`nextCursor` is defined iff `startIndex+PAGE_SIZE < length(assets)` and
equals `cursorValue(assets[startIndex+PAGE_SIZE])`. -/
theorem flat_pagination_contract (assets : List Asset) (prefixPath : List String)
    (cursor : Option String) (s : Nat) (hs : specFlatStart assets prefixPath cursor s) :
    (buildFlatProps assets prefixPath cursor).displayed = (assets.drop s).take PAGE_SIZE ∧
    (buildFlatProps assets prefixPath cursor).prevCursor =
      (if 0 < s then some (cursorValueFlat prefixPath (assets.getD (s - PAGE_SIZE) default))
       else none) ∧
    (buildFlatProps assets prefixPath cursor).nextCursor =
      (if s + PAGE_SIZE < assets.length then
        some (cursorValueFlat prefixPath (assets.getD (s + PAGE_SIZE) default))
       else none) := by
  have hidx : flatCursorIndex assets prefixPath cursor = (s : Int) := by
    cases cursor with
    | none =>
      have hs0 : s = 0 := hs
      simp [flatCursorIndex, hs0]
    | some c =>
      obtain ⟨h1, h2, h3⟩ := hs
      by_cases hc : c = ""
      · subst hc
        have hs0 : s = 0 := by
          by_contra hne
          have hpos : 0 < s := Nat.pos_of_ne_zero hne
          have hfalse := h3 0 hpos
          rw [jsStrLe_empty_left] at hfalse
          cases hfalse
        simp [flatCursorIndex, hs0]
      · simp only [flatCursorIndex, hc, if_neg, if_false]
        exact jsFindIndex_eq_of _ _ s h1 h2 h3
  exact ⟨buildFlatProps_displayed_of _ _ _ _ hidx,
    buildFlatProps_prev_of _ _ _ _ hidx, buildFlatProps_next_of _ _ _ _ hidx⟩

/-- Three assets used by several witnesses. -/
def demoAssets : List Asset :=
  [{ id := "1", key := { path := ["a"] } },
   { id := "2", key := { path := ["b"] } },
   { id := "3", key := { path := ["c"] } }]

/-- Witness for C1 at a concrete input: the cursor `["b"]` selects start
index 1 of `demoAssets`. -/
theorem flat_pagination_contract_witness :
    specFlatStart demoAssets [] (some "[\"b\"]") 1 ∧
    ((buildFlatProps demoAssets [] (some "[\"b\"]")).displayed =
       (demoAssets.drop 1).take PAGE_SIZE ∧
     (buildFlatProps demoAssets [] (some "[\"b\"]")).prevCursor =
       (if 0 < 1 then some (cursorValueFlat [] (demoAssets.getD (1 - PAGE_SIZE) default))
        else none) ∧
     (buildFlatProps demoAssets [] (some "[\"b\"]")).nextCursor =
       (if 1 + PAGE_SIZE < demoAssets.length then
         some (cursorValueFlat [] (demoAssets.getD (1 + PAGE_SIZE) default))
        else none)) :=
  ⟨⟨by decide, by decide, by decide⟩,
   flat_pagination_contract _ _ _ _ ⟨by decide, by decide, by decide⟩⟩

/-! ## Exact cursor hits on a strictly sorted collection -/

theorem flatCursorIndex_ge (assets : List Asset) (prefixPath : List String)
    (cursor : Option String) : -1 ≤ flatCursorIndex assets prefixPath cursor := by
  cases cursor with
  | none => simp [flatCursorIndex]
  | some c =>
    simp only [flatCursorIndex]
    by_cases hc : c = ""
    · simp [hc]
    · simp only [hc, if_false]
      exact jsFindIndex_ge _ _

theorem sorted_before_exact (assets : List Asset) (prefixPath : List String) (k : Nat)
    (hk : k < assets.length)
    (hsorted : assets.Pairwise (fun a b =>
      jsStrLt (cursorValueFlat prefixPath a) (cursorValueFlat prefixPath b) = true))
    (c : String) (hc : c = cursorValueFlat prefixPath (assets.getD k default)) :
    ∀ j < k, jsStrLe c (cursorValueFlat prefixPath (assets.getD j default)) = false := by
  intro j hj
  have hj' : j < assets.length := lt_trans hj hk
  have hR := (List.pairwise_iff_getElem.mp hsorted) j k hj' hk hj
  rw [← List.getD_eq_getElem assets default hj', ← List.getD_eq_getElem assets default hk] at hR
  rw [hc]
  show (!(jsStrLt (cursorValueFlat prefixPath (assets.getD j default))
    (cursorValueFlat prefixPath (assets.getD k default)))) = false
  rw [hR]
  rfl

theorem flatCursorIndex_of_exact (assets : List Asset) (prefixPath : List String) (k : Nat)
    (hk : k < assets.length)
    (hsorted : assets.Pairwise (fun a b =>
      jsStrLt (cursorValueFlat prefixPath a) (cursorValueFlat prefixPath b) = true))
    (c : String) (hc : c = cursorValueFlat prefixPath (assets.getD k default)) :
    flatCursorIndex assets prefixPath (some c) = (k : Int) := by
  have hcne : c ≠ "" := by
    rw [hc]
    exact jsonStringify_ne_empty _
  simp only [flatCursorIndex, hcne, if_false]
  refine jsFindIndex_eq_of _ _ k hk ?_ (sorted_before_exact assets prefixPath k hk hsorted c hc)
  rw [← hc]
  exact jsStrLe_refl c

theorem buildFlatProps_head_of (assets : List Asset) (prefixPath : List String)
    (cursor : Option String) (k : Nat) (hk : k < assets.length)
    (hidx : flatCursorIndex assets prefixPath cursor = (k : Int)) :
    (buildFlatProps assets prefixPath cursor).displayed.head? =
      some (assets.getD k default) := by
  rw [buildFlatProps_displayed_of _ _ _ _ hidx]
  rw [List.drop_eq_getElem_cons hk, ← List.getD_eq_getElem assets default hk]
  have h50 : PAGE_SIZE = 49 + 1 := rfl
  rw [h50, List.take_succ_cons, List.head?_cons]

/-! ## Claim C8: a cursor equal to some asset's `cursorValue` -/

/-- C8: for a collection strictly sorted by the `cursorValue` ordering,
paginating in flat mode with the cursor `cursorValue(assets[i])` yields a
page whose first element is `assets[i]`. -/
theorem flat_cursor_exact_hit (assets : List Asset) (prefixPath : List String) (i : Nat)
    (hi : i < assets.length)
    (hsorted : assets.Pairwise (fun a b =>
      jsStrLt (cursorValueFlat prefixPath a) (cursorValueFlat prefixPath b) = true)) :
    (buildFlatProps assets prefixPath
        (some (cursorValueFlat prefixPath (assets.getD i default)))).displayed.head? =
      some (assets.getD i default) := by
  have hidx := flatCursorIndex_of_exact assets prefixPath i hi hsorted _ rfl
  exact buildFlatProps_head_of assets prefixPath _ i hi hidx

/-- Witness for C8 at a concrete input: `demoAssets` with `i = 1`. -/
theorem flat_cursor_exact_hit_witness :
    1 < demoAssets.length ∧
    demoAssets.Pairwise (fun a b =>
      jsStrLt (cursorValueFlat [] a) (cursorValueFlat [] b) = true) ∧
    (buildFlatProps demoAssets []
        (some (cursorValueFlat [] (demoAssets.getD 1 default)))).displayed.head? =
      some (demoAssets.getD 1 default) :=
  ⟨by decide, by decide, flat_cursor_exact_hit demoAssets [] 1 (by decide) (by decide)⟩

/-! ## Claim C7: feeding `nextCursor` back -/

/-- C7: for a collection strictly sorted by the `cursorValue` ordering, if
a flat-mode call returns a defined `nextCursor`, feeding it back as the
cursor of the next call (same assets, same prefix path) yields a non-empty
page whose first displayed item has exactly that `cursorValue`. -/
theorem next_cursor_round_trip (assets : List Asset) (prefixPath : List String)
    (cursor : Option String) (c : String)
    (hsorted : assets.Pairwise (fun a b =>
      jsStrLt (cursorValueFlat prefixPath a) (cursorValueFlat prefixPath b) = true))
    (hnext : (buildFlatProps assets prefixPath cursor).nextCursor = some c) :
    ((buildFlatProps assets prefixPath (some c)).displayed.head?).map
      (cursorValueFlat prefixPath) = some c := by
  have hunfold : (buildFlatProps assets prefixPath cursor).nextCursor =
      (if flatCursorIndex assets prefixPath cursor + (PAGE_SIZE : Int) < (assets.length : Int) then
        some (cursorValueFlat prefixPath
          (jsGetD assets (flatCursorIndex assets prefixPath cursor + (PAGE_SIZE : Int))))
      else none) := rfl
  rw [hunfold] at hnext
  by_cases hlt : flatCursorIndex assets prefixPath cursor + (PAGE_SIZE : Int) <
      (assets.length : Int)
  · rw [if_pos hlt] at hnext
    have hge := flatCursorIndex_ge assets prefixPath cursor
    have hk_lt : (flatCursorIndex assets prefixPath cursor + (PAGE_SIZE : Int)).toNat <
        assets.length := by
      simp only [PAGE_SIZE] at hlt hge ⊢
      omega
    have hc : c = cursorValueFlat prefixPath
        (assets.getD (flatCursorIndex assets prefixPath cursor + (PAGE_SIZE : Int)).toNat
          default) := by
      have hinj := Option.some.inj hnext
      rw [← hinj]
      rfl
    have hidx2 := flatCursorIndex_of_exact assets prefixPath _ hk_lt hsorted c hc
    rw [buildFlatProps_head_of assets prefixPath (some c) _ hk_lt hidx2]
    exact congrArg some hc.symm
  · rw [if_neg hlt] at hnext
    cases hnext

/-- Fifty-one path segments in strictly increasing order, enough to make
`nextCursor` defined on the first page. -/
def roundTripSegs : List String :=
  ["a0", "a1", "a2", "a3", "a4", "a5", "a6", "a7", "a8", "a9",
   "b0", "b1", "b2", "b3", "b4", "b5", "b6", "b7", "b8", "b9",
   "c0", "c1", "c2", "c3", "c4", "c5", "c6", "c7", "c8", "c9",
   "d0", "d1", "d2", "d3", "d4", "d5", "d6", "d7", "d8", "d9",
   "e0", "e1", "e2", "e3", "e4", "e5", "e6", "e7", "e8", "e9",
   "f0"]

/-- Fifty-one single-segment assets in strictly increasing key order. -/
def roundTripAssets : List Asset :=
  roundTripSegs.map fun s => { id := s, key := { path := [s] } }

set_option maxHeartbeats 1000000 in
/-- Witness for C7 at a concrete input: the first page of the 51-asset
collection has `nextCursor = ["f0"]`, and feeding it back yields a page
starting exactly at that cursor value. -/
theorem next_cursor_round_trip_witness :
    roundTripAssets.Pairwise (fun a b =>
      jsStrLt (cursorValueFlat [] a) (cursorValueFlat [] b) = true) ∧
    (buildFlatProps roundTripAssets [] none).nextCursor = some "[\"f0\"]" ∧
    ((buildFlatProps roundTripAssets [] (some "[\"f0\"]")).displayed.head?).map
      (cursorValueFlat []) = some "[\"f0\"]" :=
  ⟨by decide, by decide,
   next_cursor_round_trip roundTripAssets [] none "[\"f0\"]" (by decide) (by decide)⟩

/-! ## The `slice(-1, ...)` shape of the not-found branch -/

theorem unitsLt_nil_right : ∀ u, unitsLt u [] = false := by
  intro u
  cases u with
  | nil => rfl
  | cons a u => rfl

theorem jsSlice_neg_one {α : Type} [Inhabited α] (xs : List α) (k : Nat) (hk : 0 < xs.length) :
    jsSlice xs (-1 : Int) (k : Int) =
      (if k < xs.length then [] else [xs.getD (xs.length - 1) default]) := by
  simp only [jsSlice]
  rw [if_pos (show (-1 : Int) < 0 by omega)]
  rw [if_neg (show ¬ ((k : Int) < 0) by omega)]
  rw [max_eq_left (show (0 : Int) ≤ (xs.length : Int) + -1 by omega)]
  have h1 : ((xs.length : Int) + -1).toNat = xs.length - 1 := by omega
  rw [h1]
  have hdrop : xs.drop (xs.length - 1) = [xs.getD (xs.length - 1) default] := by
    have hlt : xs.length - 1 < xs.length := by omega
    rw [List.drop_eq_getElem_cons hlt, ← List.getD_eq_getElem xs default hlt]
    have : xs.length - 1 + 1 = xs.length := by omega
    rw [this, List.drop_length]
  by_cases hkl : k < xs.length
  · rw [min_eq_left (show (k : Int) ≤ (xs.length : Int) by omega)]
    have h2 : ((k : Int)).toNat = k := by omega
    rw [h2, if_pos hkl]
    have h3 : k - (xs.length - 1) = 0 := by omega
    rw [h3, List.take_zero]
  · rw [min_eq_right (show (xs.length : Int) ≤ (k : Int) by omega)]
    have h2 : ((xs.length : Int)).toNat = xs.length := by omega
    rw [h2, if_neg hkl, hdrop]
    have h3 : xs.length - (xs.length - 1) = 1 := by omega
    rw [h3]
    rfl

/-! ## Claim C9: flat mode with a cursor past every asset -/

/-- C9: in flat mode, a cursor strictly greater than every asset's
`cursorValue` makes the index search yield `-1`; the page is then
`assets.slice(-1, PAGE_SIZE - 1)` — the one-element list holding the last
asset when fewer than `PAGE_SIZE` assets exist, the empty list otherwise —
`prevCursor` is undefined, and `nextCursor` is defined iff the collection
has at least `PAGE_SIZE` elements, in which case it equals
`cursorValue(assets[PAGE_SIZE - 1])`. -/
theorem flat_cursor_past_end (assets : List Asset) (prefixPath : List String) (c : String)
    (hne : 0 < assets.length)
    (hgt : ∀ a ∈ assets, jsStrLt (cursorValueFlat prefixPath a) c = true) :
    (buildFlatProps assets prefixPath (some c)).displayed =
      (if PAGE_SIZE ≤ assets.length then [] else [assets.getD (assets.length - 1) default]) ∧
    (buildFlatProps assets prefixPath (some c)).prevCursor = none ∧
    (buildFlatProps assets prefixPath (some c)).nextCursor =
      (if PAGE_SIZE ≤ assets.length then
        some (cursorValueFlat prefixPath (assets.getD (PAGE_SIZE - 1) default))
       else none) := by
  have hcne : c ≠ "" := by
    intro hc
    subst hc
    cases assets with
    | nil => simp at hne
    | cons a rest =>
      have hfalse := hgt a (List.mem_cons_self a rest)
      rw [show jsStrLt (cursorValueFlat prefixPath a) "" =
        unitsLt (strUnits (cursorValueFlat prefixPath a)) [] from rfl] at hfalse
      rw [unitsLt_nil_right] at hfalse
      cases hfalse
  have hfi : flatCursorIndex assets prefixPath (some c) = -1 := by
    simp only [flatCursorIndex, hcne, if_false]
    apply jsFindIndex_neg
    intro x hx
    rw [show jsStrLe c (cursorValueFlat prefixPath x) =
      (!(jsStrLt (cursorValueFlat prefixPath x) c)) from rfl, hgt x hx]
    rfl
  have hk : (-1 : Int) + (PAGE_SIZE : Int) = ((PAGE_SIZE - 1 : Nat) : Int) := by
    simp only [PAGE_SIZE]
    omega
  refine ⟨?_, ?_, ?_⟩
  · show jsSlice assets (flatCursorIndex assets prefixPath (some c))
      (flatCursorIndex assets prefixPath (some c) + (PAGE_SIZE : Int)) = _
    rw [hfi, hk, jsSlice_neg_one assets (PAGE_SIZE - 1) hne]
    by_cases hbig : PAGE_SIZE ≤ assets.length
    · rw [if_pos (show PAGE_SIZE - 1 < assets.length by simp only [PAGE_SIZE] at hbig ⊢; omega),
        if_pos hbig]
    · rw [if_neg (show ¬ (PAGE_SIZE - 1 < assets.length) by
        simp only [PAGE_SIZE] at hbig ⊢; omega), if_neg hbig]
  · show (if flatCursorIndex assets prefixPath (some c) > 0 then
      some (cursorValueFlat prefixPath (jsGetD assets
        (max 0 (flatCursorIndex assets prefixPath (some c) - (PAGE_SIZE : Int))))) else none) = none
    rw [hfi]
    rw [if_neg (show ¬ ((-1 : Int) > 0) by omega)]
  · show (if flatCursorIndex assets prefixPath (some c) + (PAGE_SIZE : Int) <
        (assets.length : Int) then
      some (cursorValueFlat prefixPath (jsGetD assets
        (flatCursorIndex assets prefixPath (some c) + (PAGE_SIZE : Int)))) else none) = _
    rw [hfi, hk]
    by_cases hbig : PAGE_SIZE ≤ assets.length
    · rw [if_pos (show ((PAGE_SIZE - 1 : Nat) : Int) < (assets.length : Int) by
        simp only [PAGE_SIZE] at hbig ⊢; omega), if_pos hbig]
      simp [jsGetD]
    · rw [if_neg (show ¬ (((PAGE_SIZE - 1 : Nat) : Int) < (assets.length : Int)) by
        simp only [PAGE_SIZE] at hbig ⊢; omega), if_neg hbig]

/-- Witness for C9 at a concrete input: `demoAssets` (3 assets) with the
cursor `"z"`, greater than every serialized key. -/
theorem flat_cursor_past_end_witness :
    0 < demoAssets.length ∧
    (∀ a ∈ demoAssets, jsStrLt (cursorValueFlat [] a) "z" = true) ∧
    ((buildFlatProps demoAssets [] (some "z")).displayed =
      (if PAGE_SIZE ≤ demoAssets.length then []
       else [demoAssets.getD (demoAssets.length - 1) default]) ∧
     (buildFlatProps demoAssets [] (some "z")).prevCursor = none ∧
     (buildFlatProps demoAssets [] (some "z")).nextCursor =
      (if PAGE_SIZE ≤ demoAssets.length then
        some (cursorValueFlat [] (demoAssets.getD (PAGE_SIZE - 1) default))
       else none)) :=
  ⟨by decide, by decide, flat_cursor_past_end demoAssets [] "z" (by decide) (by decide)⟩

/-! ## Lengths of the namespace list -/

theorem length_sortInsert (x : List String) (l : List (List String)) :
    (sortInsert x l).length = l.length + 1 := by
  induction l with
  | nil => rfl
  | cons y ys ih =>
    simp only [sortInsert]
    by_cases h : jsSortLe y x = true
    · simp [h, ih]
    · simp [h]

theorem length_jsSort (l : List (List String)) : (jsSort l).length = l.length := by
  suffices hgen : ∀ acc : List (List String),
      (l.foldl (fun acc x => sortInsert x acc) acc).length = acc.length + l.length by
    simpa using hgen []
  induction l with
  | nil => intro acc; simp
  | cons x xs ih =>
    intro acc
    simp only [List.foldl_cons]
    rw [ih (sortInsert x acc), length_sortInsert, List.length_cons]
    omega

theorem length_nsDedup (seen : List String) (l : List (List String)) :
    (nsDedup seen l).length ≤ l.length := by
  induction l generalizing seen with
  | nil => simp [nsDedup]
  | cons x xs ih =>
    simp only [nsDedup]
    by_cases h : jsonStringify x ∈ seen
    · rw [if_pos h]
      have := ih seen
      simp only [List.length_cons]
      omega
    · rw [if_neg h]
      have := ih (jsonStringify x :: seen)
      simp only [List.length_cons]
      omega

theorem namespacesOf_length_le (assets : List Asset) (prefixPath : List String) :
    (namespacesOf assets prefixPath).length ≤ assets.length := by
  simp only [namespacesOf]
  rw [length_jsSort]
  calc (nsDedup [] (assets.map (namespaceForAsset prefixPath))).length
      ≤ (assets.map (namespaceForAsset prefixPath)).length := length_nsDedup _ _
    _ = assets.length := List.length_map _ _

/-! ## Bounds on the cursor indices -/

theorem nsCursorIndex_ge (namespaces : List (List String)) (prefixPath : List String)
    (cursor : Option String) : -1 ≤ nsCursorIndex namespaces prefixPath cursor := by
  cases cursor with
  | none => simp [nsCursorIndex]
  | some c =>
    simp only [nsCursorIndex]
    by_cases hc : c = ""
    · simp [hc]
    · simp only [hc, if_false]
      exact jsFindIndex_ge _ _

theorem flatCursorIndex_zero_or_lt (assets : List Asset) (prefixPath : List String)
    (cursor : Option String) :
    flatCursorIndex assets prefixPath cursor = 0 ∨
      flatCursorIndex assets prefixPath cursor < (assets.length : Int) := by
  cases cursor with
  | none => exact Or.inl rfl
  | some c =>
    simp only [flatCursorIndex]
    by_cases hc : c = ""
    · simp [hc]
    · simp only [hc, if_false]
      exact Or.inr (jsFindIndex_lt_length _ _)

theorem nsCursorIndex_zero_or_lt (namespaces : List (List String)) (prefixPath : List String)
    (cursor : Option String) :
    nsCursorIndex namespaces prefixPath cursor = 0 ∨
      nsCursorIndex namespaces prefixPath cursor < (namespaces.length : Int) := by
  cases cursor with
  | none => exact Or.inl rfl
  | some c =>
    simp only [nsCursorIndex]
    by_cases hc : c = ""
    · simp [hc]
    · simp only [hc, if_false]
      exact Or.inr (jsFindIndex_lt_length _ _)

/-! ## Projections of `buildNamespaceProps` -/

theorem nsProps_neg (assets : List Asset) (prefixPath : List String) (cursor : Option String)
    (h : nsCursorIndex (namespacesOf assets prefixPath) prefixPath cursor = -1) :
    buildNamespaceProps assets prefixPath cursor =
      { displayed := []
        displayPathForAsset := namespaceForAsset prefixPath
        prevCursor := none
        nextCursor := none } := by
  simp only [buildNamespaceProps, h]
  rfl

theorem nsProps_displayed_pos (assets : List Asset) (prefixPath : List String)
    (cursor : Option String)
    (h : nsCursorIndex (namespacesOf assets prefixPath) prefixPath cursor ≠ -1) :
    (buildNamespaceProps assets prefixPath cursor).displayed =
      filterAssetsByNamespace assets
        ((jsSlice (namespacesOf assets prefixPath)
            (nsCursorIndex (namespacesOf assets prefixPath) prefixPath cursor)
            (nsCursorIndex (namespacesOf assets prefixPath) prefixPath cursor +
              (PAGE_SIZE : Int))).map fun ns => prefixPath ++ ns) := by
  simp only [buildNamespaceProps, h, if_false]

theorem nsProps_prev_pos (assets : List Asset) (prefixPath : List String)
    (cursor : Option String)
    (h : nsCursorIndex (namespacesOf assets prefixPath) prefixPath cursor ≠ -1) :
    (buildNamespaceProps assets prefixPath cursor).prevCursor =
      (if nsCursorIndex (namespacesOf assets prefixPath) prefixPath cursor ≠ 0 then
        some (cursorValueNs prefixPath (jsGetD (namespacesOf assets prefixPath)
          (max 0 (nsCursorIndex (namespacesOf assets prefixPath) prefixPath cursor -
            (PAGE_SIZE : Int)))))
       else none) := by
  simp only [buildNamespaceProps, h, if_false]

theorem nsProps_next_pos (assets : List Asset) (prefixPath : List String)
    (cursor : Option String)
    (h : nsCursorIndex (namespacesOf assets prefixPath) prefixPath cursor ≠ -1) :
    (buildNamespaceProps assets prefixPath cursor).nextCursor =
      (if ((namespacesOf assets prefixPath).length : Int) >
          nsCursorIndex (namespacesOf assets prefixPath) prefixPath cursor + (PAGE_SIZE : Int) then
        some (cursorValueNs prefixPath (jsGetD (namespacesOf assets prefixPath)
          (nsCursorIndex (namespacesOf assets prefixPath) prefixPath cursor + (PAGE_SIZE : Int))))
       else none) := by
  simp only [buildNamespaceProps, h, if_false]

/-! ## Claim C6 (amended): collections of at most one page -/

/-- C6 as amended: when `length(assets) <= PAGE_SIZE`, `nextCursor` is
undefined except in the flat not-found case with exactly `PAGE_SIZE`
assets (where it is `cursorValue(assets[PAGE_SIZE-1])`), and `prevCursor`
is undefined iff the search yields a start index `<= 0`; a cursor
selecting a start index `> 0` makes `prevCursor` the cursor value of the
first element. -/
theorem page_size_boundary (assets : List Asset) (prefixPath : List String)
    (cursor : Option String) (h : assets.length ≤ PAGE_SIZE) :
    (buildFlatProps assets prefixPath cursor).nextCursor =
      (if flatCursorIndex assets prefixPath cursor = -1 ∧ assets.length = PAGE_SIZE then
        some (cursorValueFlat prefixPath (assets.getD (PAGE_SIZE - 1) default))
       else none) ∧
    (buildFlatProps assets prefixPath cursor).prevCursor =
      (if 0 < flatCursorIndex assets prefixPath cursor then
        some (cursorValueFlat prefixPath (assets.getD 0 default))
       else none) ∧
    (buildNamespaceProps assets prefixPath cursor).nextCursor = none ∧
    (buildNamespaceProps assets prefixPath cursor).prevCursor =
      (if 0 < nsCursorIndex (namespacesOf assets prefixPath) prefixPath cursor then
        some (cursorValueNs prefixPath ((namespacesOf assets prefixPath).getD 0 default))
       else none) := by
  have hge := flatCursorIndex_ge assets prefixPath cursor
  have hzl := flatCursorIndex_zero_or_lt assets prefixPath cursor
  refine ⟨?_, ?_, ?_, ?_⟩
  · show (if flatCursorIndex assets prefixPath cursor + (PAGE_SIZE : Int) < (assets.length : Int)
      then some (cursorValueFlat prefixPath (jsGetD assets
        (flatCursorIndex assets prefixPath cursor + (PAGE_SIZE : Int)))) else none) = _
    by_cases hm1 : flatCursorIndex assets prefixPath cursor = -1
    · rw [hm1]
      by_cases hlen : assets.length = PAGE_SIZE
      · rw [if_pos (show (-1 : Int) + (PAGE_SIZE : Int) < (assets.length : Int) by
          simp only [PAGE_SIZE] at hlen ⊢; omega)]
        rw [if_pos ⟨rfl, hlen⟩]
        have hidxeq : ((-1 : Int) + (PAGE_SIZE : Int)).toNat = PAGE_SIZE - 1 := by decide
        simp only [jsGetD, hidxeq]
      · rw [if_neg (show ¬ ((-1 : Int) + (PAGE_SIZE : Int) < (assets.length : Int)) by
          simp only [PAGE_SIZE] at h hlen ⊢; omega)]
        rw [if_neg (by simp [hlen])]
    · rw [if_neg (show ¬ (flatCursorIndex assets prefixPath cursor + (PAGE_SIZE : Int) <
        (assets.length : Int)) by simp only [PAGE_SIZE] at h hge hm1 ⊢; omega)]
      rw [if_neg (by simp [hm1])]
  · show (if flatCursorIndex assets prefixPath cursor > 0 then
      some (cursorValueFlat prefixPath (jsGetD assets
        (max 0 (flatCursorIndex assets prefixPath cursor - (PAGE_SIZE : Int))))) else none) = _
    by_cases h0 : 0 < flatCursorIndex assets prefixPath cursor
    · rw [if_pos h0, if_pos h0]
      have hlt : flatCursorIndex assets prefixPath cursor < (assets.length : Int) := by
        rcases hzl with h' | h'
        · omega
        · exact h'
      have harg : jsGetD assets
          (max 0 (flatCursorIndex assets prefixPath cursor - (PAGE_SIZE : Int))) =
          assets.getD 0 default := by
        have hmax : max 0 (flatCursorIndex assets prefixPath cursor - (PAGE_SIZE : Int)) = 0 := by
          refine max_eq_left ?_
          simp only [PAGE_SIZE] at h ⊢
          omega
        rw [hmax]
        rfl
      rw [harg]
    · rw [if_neg h0, if_neg h0]
  · have hnsge := nsCursorIndex_ge (namespacesOf assets prefixPath) prefixPath cursor
    have hnslen := namespacesOf_length_le assets prefixPath
    by_cases hm1 : nsCursorIndex (namespacesOf assets prefixPath) prefixPath cursor = -1
    · rw [nsProps_neg assets prefixPath cursor hm1]
    · rw [nsProps_next_pos assets prefixPath cursor hm1]
      rw [if_neg (show ¬ (((namespacesOf assets prefixPath).length : Int) >
        nsCursorIndex (namespacesOf assets prefixPath) prefixPath cursor + (PAGE_SIZE : Int)) by
          simp only [PAGE_SIZE] at h ⊢
          omega)]
  · have hnsge := nsCursorIndex_ge (namespacesOf assets prefixPath) prefixPath cursor
    have hnszl := nsCursorIndex_zero_or_lt (namespacesOf assets prefixPath) prefixPath cursor
    have hnslen := namespacesOf_length_le assets prefixPath
    by_cases hm1 : nsCursorIndex (namespacesOf assets prefixPath) prefixPath cursor = -1
    · rw [nsProps_neg assets prefixPath cursor hm1, hm1]
      rw [if_neg (show ¬ ((0 : Int) < -1) by omega)]
    · rw [nsProps_prev_pos assets prefixPath cursor hm1]
      by_cases h0 : 0 < nsCursorIndex (namespacesOf assets prefixPath) prefixPath cursor
      · rw [if_pos (show nsCursorIndex (namespacesOf assets prefixPath) prefixPath cursor ≠ 0 by
          omega), if_pos h0]
        have hlt : nsCursorIndex (namespacesOf assets prefixPath) prefixPath cursor <
            ((namespacesOf assets prefixPath).length : Int) := by
          rcases hnszl with h' | h'
          · omega
          · exact h'
        have hmax : max 0 (nsCursorIndex (namespacesOf assets prefixPath) prefixPath cursor -
            (PAGE_SIZE : Int)) = 0 := by
          refine max_eq_left ?_
          simp only [PAGE_SIZE] at h ⊢
          omega
        rw [hmax]
        rfl
      · rw [if_neg (show ¬ (nsCursorIndex (namespacesOf assets prefixPath) prefixPath cursor ≠ 0)
          by omega), if_neg h0]

/-- Witness for C6 (amended) at a concrete input: `demoAssets` with the
cursor `["b"]` selecting start index 1. -/
theorem page_size_boundary_witness :
    demoAssets.length ≤ PAGE_SIZE ∧
    ((buildFlatProps demoAssets [] (some "[\"b\"]")).nextCursor =
      (if flatCursorIndex demoAssets [] (some "[\"b\"]") = -1 ∧ demoAssets.length = PAGE_SIZE then
        some (cursorValueFlat [] (demoAssets.getD (PAGE_SIZE - 1) default))
       else none) ∧
     (buildFlatProps demoAssets [] (some "[\"b\"]")).prevCursor =
      (if 0 < flatCursorIndex demoAssets [] (some "[\"b\"]") then
        some (cursorValueFlat [] (demoAssets.getD 0 default))
       else none) ∧
     (buildNamespaceProps demoAssets [] (some "[\"b\"]")).nextCursor = none ∧
     (buildNamespaceProps demoAssets [] (some "[\"b\"]")).prevCursor =
      (if 0 < nsCursorIndex (namespacesOf demoAssets []) [] (some "[\"b\"]") then
        some (cursorValueNs [] ((namespacesOf demoAssets []).getD 0 default))
       else none)) :=
  ⟨by decide, page_size_boundary demoAssets [] (some "[\"b\"]") (by decide)⟩

/-! ## Claim C2: what namespace mode displays -/

theorem segsMatch_iff (ps qs : List String) :
    segsMatch ps qs = true ↔ ∀ i < ps.length, ps[i]? = qs[i]? := by
  induction ps generalizing qs with
  | nil => simp [segsMatch]
  | cons p ps ih =>
    cases qs with
    | nil =>
      simp only [segsMatch, Bool.false_eq_true, false_iff]
      intro hcontra
      have h0 := hcontra 0 (by simp)
      simp at h0
    | cons q qs =>
      simp only [segsMatch, Bool.and_eq_true, beq_iff_eq, ih]
      constructor
      · rintro ⟨hpq, hrest⟩ i hi
        cases i with
        | zero => simp [hpq]
        | succ i =>
          simp only [List.getElem?_cons_succ]
          exact hrest i (by simpa using hi)
      · intro hall
        constructor
        · have h0 := hall 0 (by simp)
          simpa using h0
        · intro i hi
          have hstep := hall (i + 1) (by simpa using Nat.succ_lt_succ hi)
          simpa using hstep

/-- C2: in namespace-grouped mode the displayed list consists of exactly
those assets whose key path agrees with `prefixPath ++ ns` on every
position up to the length of that extended prefix, for at least one
namespace `ns` in the selected window. -/
theorem namespace_displayed_filter (assets : List Asset) (prefixPath : List String)
    (cursor : Option String) (a : Asset) :
    a ∈ (buildNamespaceProps assets prefixPath cursor).displayed ↔
      a ∈ assets ∧ ∃ ns ∈ nsWindow assets prefixPath cursor,
        ∀ i < (prefixPath ++ ns).length, (prefixPath ++ ns)[i]? = a.key.path[i]? := by
  by_cases hm1 : nsCursorIndex (namespacesOf assets prefixPath) prefixPath cursor = -1
  · rw [nsProps_neg assets prefixPath cursor hm1]
    have hw : nsWindow assets prefixPath cursor = [] := by
      simp [nsWindow, hm1]
    simp [hw]
  · rw [nsProps_displayed_pos assets prefixPath cursor hm1]
    have hw : nsWindow assets prefixPath cursor =
        jsSlice (namespacesOf assets prefixPath)
          (nsCursorIndex (namespacesOf assets prefixPath) prefixPath cursor)
          (nsCursorIndex (namespacesOf assets prefixPath) prefixPath cursor +
            (PAGE_SIZE : Int)) := by
      simp [nsWindow, hm1]
    rw [hw]
    simp only [filterAssetsByNamespace, List.mem_filter]
    refine and_congr_right fun _ => ?_
    rw [List.any_map, List.any_eq_true]
    constructor
    · rintro ⟨ns, hns, hmatch⟩
      exact ⟨ns, hns, (segsMatch_iff _ _).mp hmatch⟩
    · rintro ⟨ns, hns, hmatch⟩
      exact ⟨ns, hns, (segsMatch_iff _ _).mpr hmatch⟩

/-! ## The sort order used by the default sort -/

theorem jsSortLe_total (x y : List String) : jsSortLe x y = true ∨ jsSortLe y x = true := by
  simp only [jsSortLe, jsStrLe, jsStrLt, Bool.not_eq_true']
  by_cases h1 : unitsLt (strUnits (nsToString y)) (strUnits (nsToString x)) = true
  · right
    exact unitsLt_asymm _ _ h1
  · left
    simpa using h1

theorem jsSortLe_trans (x y z : List String) (h1 : jsSortLe x y = true)
    (h2 : jsSortLe y z = true) : jsSortLe x z = true := by
  simp only [jsSortLe, jsStrLe, jsStrLt, Bool.not_eq_true'] at h1 h2 ⊢
  by_contra hcon
  simp only [Bool.not_eq_false] at hcon
  rcases Bool.eq_false_or_eq_true
      (unitsLt (strUnits (nsToString x)) (strUnits (nsToString y))) with hxy | hxy
  · have huzuy := unitsLt_trans _ _ _ hcon hxy
    rw [huzuy] at h2
    cases h2
  · have hxeqy := unitsLt_conn _ _ hxy h1
    rw [hxeqy] at hcon
    rw [hcon] at h2
    cases h2

/-! ## Membership and order facts for the modelled sort -/

theorem mem_sortInsert (y x : List String) (l : List (List String)) :
    y ∈ sortInsert x l ↔ y = x ∨ y ∈ l := by
  induction l with
  | nil => simp [sortInsert]
  | cons z zs ih =>
    simp only [sortInsert]
    by_cases h : jsSortLe z x = true
    · rw [if_pos h]
      simp only [List.mem_cons, ih]
      tauto
    · rw [if_neg h]
      simp only [List.mem_cons]

theorem mem_jsSort (y : List String) (l : List (List String)) :
    y ∈ jsSort l ↔ y ∈ l := by
  suffices hgen : ∀ acc : List (List String),
      (y ∈ l.foldl (fun acc x => sortInsert x acc) acc ↔ y ∈ acc ∨ y ∈ l) by
    simpa using hgen []
  induction l with
  | nil => intro acc; simp
  | cons x xs ih =>
    intro acc
    simp only [List.foldl_cons]
    rw [ih (sortInsert x acc)]
    simp only [mem_sortInsert, List.mem_cons]
    tauto

theorem sortInsert_sorted (x : List String) (l : List (List String))
    (hl : l.Pairwise (fun a b => jsSortLe a b = true)) :
    (sortInsert x l).Pairwise (fun a b => jsSortLe a b = true) := by
  induction l with
  | nil => simp [sortInsert]
  | cons y ys ih =>
    rcases List.pairwise_cons.mp hl with ⟨hy, hys⟩
    simp only [sortInsert]
    by_cases h : jsSortLe y x = true
    · rw [if_pos h]
      refine List.pairwise_cons.mpr ⟨?_, ih hys⟩
      intro z hz
      rcases (mem_sortInsert z x ys).mp hz with rfl | hz'
      · exact h
      · exact hy z hz'
    · rw [if_neg h]
      have hxy : jsSortLe x y = true := by
        rcases jsSortLe_total x y with h' | h'
        · exact h'
        · exact absurd h' h
      refine List.pairwise_cons.mpr ⟨?_, hl⟩
      intro z hz
      rcases List.mem_cons.mp hz with rfl | hz'
      · exact hxy
      · exact jsSortLe_trans x y z hxy (hy z hz')

theorem jsSort_sorted (l : List (List String)) :
    (jsSort l).Pairwise (fun a b => jsSortLe a b = true) := by
  suffices hgen : ∀ acc : List (List String),
      acc.Pairwise (fun a b => jsSortLe a b = true) →
      (l.foldl (fun acc x => sortInsert x acc) acc).Pairwise (fun a b => jsSortLe a b = true) by
    exact hgen [] (List.Pairwise.nil)
  induction l with
  | nil => intro acc hacc; simpa using hacc
  | cons x xs ih =>
    intro acc hacc
    simp only [List.foldl_cons]
    exact ih (sortInsert x acc) (sortInsert_sorted x acc hacc)

theorem perm_sortInsert (x : List String) (l : List (List String)) :
    (sortInsert x l).Perm (x :: l) := by
  induction l with
  | nil => simp [sortInsert]
  | cons y ys ih =>
    simp only [sortInsert]
    by_cases h : jsSortLe y x = true
    · rw [if_pos h]
      exact (List.Perm.cons y ih).trans (List.Perm.swap x y ys)
    · rw [if_neg h]

theorem perm_jsSort (l : List (List String)) : (jsSort l).Perm l := by
  suffices hgen : ∀ acc : List (List String),
      (l.foldl (fun acc x => sortInsert x acc) acc).Perm (acc ++ l) by
    simpa using hgen []
  induction l with
  | nil => intro acc; simp
  | cons x xs ih =>
    intro acc
    simp only [List.foldl_cons]
    have step1 := ih (sortInsert x acc)
    have step2 : (sortInsert x acc ++ xs).Perm ((x :: acc) ++ xs) :=
      (perm_sortInsert x acc).append_right xs
    have step3 : (x :: (acc ++ xs)).Perm (acc ++ x :: xs) := List.perm_middle.symm
    exact step1.trans (step2.trans step3)

/-! ## Facts about the `Set`-based deduplication -/

theorem mem_nsDedup (y : List String) (seen : List String) (l : List (List String))
    (h : y ∈ nsDedup seen l) : y ∈ l := by
  induction l generalizing seen with
  | nil => simp [nsDedup] at h
  | cons x xs ih =>
    simp only [nsDedup] at h
    by_cases hx : jsonStringify x ∈ seen
    · rw [if_pos hx] at h
      exact List.mem_cons_of_mem x (ih seen h)
    · rw [if_neg hx] at h
      rcases List.mem_cons.mp h with rfl | h'
      · exact List.mem_cons_self _ _
      · exact List.mem_cons_of_mem _ (ih _ h')

theorem nsDedup_complete (x : List String) (seen : List String) (l : List (List String))
    (hx : x ∈ l) :
    jsonStringify x ∈ seen ∨
      ∃ y ∈ nsDedup seen l, jsonStringify y = jsonStringify x := by
  induction l generalizing seen with
  | nil => cases hx
  | cons z zs ih =>
    rcases List.mem_cons.mp hx with rfl | hx'
    · by_cases hz : jsonStringify x ∈ seen
      · exact Or.inl hz
      · refine Or.inr ⟨x, ?_, rfl⟩
        simp only [nsDedup]
        rw [if_neg hz]
        exact List.mem_cons_self _ _
    · by_cases hz : jsonStringify z ∈ seen
      · rcases ih seen hx' with hl | ⟨y, hy, hkey⟩
        · exact Or.inl hl
        · refine Or.inr ⟨y, ?_, hkey⟩
          simp only [nsDedup]
          rw [if_pos hz]
          exact hy
      · rcases ih (jsonStringify z :: seen) hx' with hl | ⟨y, hy, hkey⟩
        · rcases List.mem_cons.mp hl with heq | hseen
          · refine Or.inr ⟨z, ?_, heq.symm⟩
            simp only [nsDedup]
            rw [if_neg hz]
            exact List.mem_cons_self _ _
          · exact Or.inl hseen
        · refine Or.inr ⟨y, ?_, hkey⟩
          simp only [nsDedup]
          rw [if_neg hz]
          exact List.mem_cons_of_mem z hy

theorem nsDedup_distinct (seen : List String) (l : List (List String)) :
    (∀ y ∈ nsDedup seen l, jsonStringify y ∉ seen) ∧
    (nsDedup seen l).Pairwise (fun a b => jsonStringify a ≠ jsonStringify b) := by
  induction l generalizing seen with
  | nil => simp [nsDedup]
  | cons x xs ih =>
    simp only [nsDedup]
    by_cases hx : jsonStringify x ∈ seen
    · rw [if_pos hx]
      exact ih seen
    · rw [if_neg hx]
      obtain ⟨hnot, hpw⟩ := ih (jsonStringify x :: seen)
      constructor
      · intro y hy
        rcases List.mem_cons.mp hy with rfl | hy'
        · exact hx
        · intro hseen
          exact hnot y hy' (List.mem_cons_of_mem _ hseen)
      · refine List.pairwise_cons.mpr ⟨?_, hpw⟩
        intro z hz
        intro hkey
        exact hnot z hz (by rw [← hkey]; exact List.mem_cons_self _ _)

/-! ## Namespaces are single segments -/

theorem namespaceForAsset_eq (prefixPath : List String) (a : Asset) :
    namespaceForAsset prefixPath a = (a.key.path.drop prefixPath.length).take 1 := by
  have h := jsSlice_natCast a.key.path prefixPath.length 1
  simp only [Nat.cast_one] at h
  exact h

theorem namespaceForAsset_single (prefixPath : List String) (a : Asset) :
    (namespaceForAsset prefixPath a).length ≤ 1 := by
  rw [namespaceForAsset_eq, List.length_take]
  exact min_le_left _ _

/-! ## Claim C5 (amended): the namespace list -/

/-- C5 as amended: the namespace list is the set of distinct
single-segment namespaces (deduplicated by serialized equality, first
occurrences kept) sorted by the default-sort comparison — the string
conversion (comma-joined segments) under code-unit string ordering — which
is not in general the serialization-based cursor ordering. -/
theorem namespaces_characterization (assets : List Asset) (prefixPath : List String) :
    ((namespacesOf assets prefixPath).Pairwise (fun x y => jsSortLe x y = true)) ∧
    ((namespacesOf assets prefixPath).Pairwise
      (fun x y => jsonStringify x ≠ jsonStringify y)) ∧
    (∀ ns ∈ namespacesOf assets prefixPath,
      ∃ a ∈ assets, ns = namespaceForAsset prefixPath a) ∧
    (∀ a ∈ assets, ∃ ns ∈ namespacesOf assets prefixPath,
      jsonStringify ns = jsonStringify (namespaceForAsset prefixPath a)) ∧
    (∀ ns ∈ namespacesOf assets prefixPath, ns.length ≤ 1) := by
  refine ⟨jsSort_sorted _, ?_, ?_, ?_, ?_⟩
  · have hperm := perm_jsSort (nsDedup [] (assets.map (namespaceForAsset prefixPath)))
    have hpw := (nsDedup_distinct [] (assets.map (namespaceForAsset prefixPath))).2
    have hsymm : Symmetric (fun a b : List String => jsonStringify a ≠ jsonStringify b) :=
      fun a b h => fun e => h e.symm
    exact (List.Perm.pairwise_iff @hsymm hperm).mpr hpw
  · intro ns hns
    have h1 : ns ∈ nsDedup [] (assets.map (namespaceForAsset prefixPath)) :=
      (mem_jsSort ns _).mp hns
    rcases List.mem_map.mp (mem_nsDedup ns [] _ h1) with ⟨a, ha, hfa⟩
    exact ⟨a, ha, hfa.symm⟩
  · intro a ha
    have hx : namespaceForAsset prefixPath a ∈ assets.map (namespaceForAsset prefixPath) :=
      List.mem_map_of_mem _ ha
    rcases nsDedup_complete (namespaceForAsset prefixPath a) [] _ hx with hl | ⟨y, hy, hkey⟩
    · simp at hl
    · exact ⟨y, (mem_jsSort y _).mpr hy, hkey⟩
  · intro ns hns
    have h1 := mem_nsDedup ns [] _ ((mem_jsSort ns _).mp hns)
    rcases List.mem_map.mp h1 with ⟨a, ha, hfa⟩
    rw [← hfa]
    exact namespaceForAsset_single prefixPath a

/-! ## Serialization order for plain segments

A character is called *plain* when its code point is at least `0x23`
(ruling out quote, control characters, space and `!`) and it is not a
backslash: `JSON.stringify` leaves plain characters unescaped. -/

theorem unitsOfChars_append (a b : List Char) :
    unitsOfChars (a ++ b) = unitsOfChars a ++ unitsOfChars b := by
  induction a with
  | nil => rfl
  | cons c cs ih => simp [unitsOfChars, ih]

theorem strUnits_append (x y : String) : strUnits (x ++ y) = strUnits x ++ strUnits y := by
  simp only [strUnits, String.data_append]
  exact unitsOfChars_append _ _

theorem escapeChar_plain (c : Char) (h1 : 0x23 ≤ c.val.toNat) (h2 : c ≠ '\\') :
    escapeChar c = [c] := by
  have hq : c ≠ '"' := by
    intro h; rw [h] at h1; exact absurd h1 (by decide)
  have h8 : c ≠ Char.ofNat 8 := by
    intro h; rw [h] at h1; exact absurd h1 (by decide)
  have h9 : c ≠ Char.ofNat 9 := by
    intro h; rw [h] at h1; exact absurd h1 (by decide)
  have h10 : c ≠ Char.ofNat 10 := by
    intro h; rw [h] at h1; exact absurd h1 (by decide)
  have h12 : c ≠ Char.ofNat 12 := by
    intro h; rw [h] at h1; exact absurd h1 (by decide)
  have h13 : c ≠ Char.ofNat 13 := by
    intro h; rw [h] at h1; exact absurd h1 (by decide)
  have hctrl : ¬ (c.val.toNat < 0x20) := by omega
  simp [escapeChar, hq, h2, h8, h9, h10, h12, h13, hctrl]

theorem escapeChars_plain (l : List Char)
    (h : ∀ c ∈ l, 0x23 ≤ c.val.toNat ∧ c ≠ '\\') : escapeChars l = l := by
  induction l with
  | nil => rfl
  | cons c cs ih =>
    have hc := h c (List.mem_cons_self c cs)
    simp only [escapeChars, escapeChar_plain c hc.1 hc.2]
    rw [ih fun c' hc' => h c' (List.mem_cons_of_mem _ hc')]
    rfl

theorem strUnits_quote (s : String)
    (hs : ∀ c ∈ s.data, 0x23 ≤ c.val.toNat ∧ c ≠ '\\') :
    strUnits (quoteString s) = 0x22 :: (strUnits s ++ [0x22]) := by
  simp only [quoteString]
  rw [strUnits_append, strUnits_append]
  have h1 : strUnits "\"" = [0x22] := by decide
  have h2 : strUnits (String.mk (escapeChars s.data)) = strUnits s := by
    simp only [strUnits]
    rw [escapeChars_plain s.data hs]
  rw [h1, h2]
  simp

theorem unitsOfChars_ge (l : List Char) (h : ∀ c ∈ l, 0x23 ≤ c.val.toNat) :
    ∀ n ∈ unitsOfChars l, 0x23 ≤ n := by
  induction l with
  | nil => simp [unitsOfChars]
  | cons c cs ih =>
    intro n hn
    simp only [unitsOfChars, List.mem_append] at hn
    rcases hn with hn | hn
    · have hc := h c (List.mem_cons_self c cs)
      simp only [charUnits] at hn
      by_cases hsmall : c.val.toNat < 0x10000
      · rw [if_pos hsmall] at hn
        simp only [List.mem_singleton] at hn
        omega
      · rw [if_neg hsmall] at hn
        have h2 : n = 0xD800 + (c.val.toNat - 0x10000) / 0x400 ∨
            n = 0xDC00 + (c.val.toNat - 0x10000) % 0x400 := by
          simpa using hn
        rcases h2 with h3 | h3 <;> omega
    · exact ih (fun c' hc' => h c' (List.mem_cons_of_mem _ hc')) n hn

theorem strUnits_ge (s : String) (h : ∀ c ∈ s.data, 0x23 ≤ c.val.toNat) :
    ∀ n ∈ strUnits s, 0x23 ≤ n :=
  unitsOfChars_ge s.data h

theorem unitsLt_cons_same (n : Nat) (A B : List Nat) :
    unitsLt (n :: A) (n :: B) = unitsLt A B := by
  simp [unitsLt]

theorem unitsLt_append_left : ∀ (a x y : List Nat), unitsLt (a ++ x) (a ++ y) = unitsLt x y := by
  intro a
  induction a with
  | nil => intro x y; rfl
  | cons n a' ih =>
    intro x y
    simp only [List.cons_append, unitsLt_cons_same]
    exact ih x y

theorem unitsLt_sep : ∀ (u v X Y : List Nat), (∀ n ∈ u, 0x23 ≤ n) → (∀ n ∈ v, 0x23 ≤ n) →
    u ≠ v → unitsLt (u ++ 0x22 :: X) (v ++ 0x22 :: Y) = unitsLt u v := by
  intro u
  induction u with
  | nil =>
    intro v X Y _ hv hne
    cases v with
    | nil => exact absurd rfl hne
    | cons d v' =>
      have hd : 0x23 ≤ d := hv d (List.mem_cons_self d v')
      simp only [List.nil_append, List.cons_append, unitsLt]
      rw [if_pos (show 0x22 < d by omega)]
  | cons a u' ih =>
    intro v X Y hu hv hne
    have ha : 0x23 ≤ a := hu a (List.mem_cons_self a u')
    cases v with
    | nil =>
      simp only [List.cons_append, List.nil_append, unitsLt]
      rw [if_neg (show ¬ (a < 0x22) by omega), if_neg (show ¬ (a = 0x22) by omega)]
    | cons b v' =>
      simp only [List.cons_append, unitsLt]
      by_cases hab : a < b
      · rw [if_pos hab, if_pos hab]
      · rw [if_neg hab, if_neg hab]
        by_cases haeb : a = b
        · rw [if_pos haeb, if_pos haeb]
          refine ih v' X Y (fun n hn => hu n (List.mem_cons_of_mem _ hn))
            (fun n hn => hv n (List.mem_cons_of_mem _ hn)) ?_
          intro h
          exact hne (by rw [haeb, h])
        · rw [if_neg haeb, if_neg haeb]

theorem items_lt : ∀ (p q : List String), p.length = q.length →
    (∀ s ∈ p, ∀ c ∈ s.data, 0x23 ≤ c.val.toNat ∧ c ≠ '\\') →
    (∀ s ∈ q, ∀ c ∈ s.data, 0x23 ≤ c.val.toNat ∧ c ≠ '\\') →
    unitsLt (strUnits (jsonItems p) ++ [0x5D]) (strUnits (jsonItems q) ++ [0x5D]) =
      specPathLexLt p q := by
  intro p
  induction p with
  | nil =>
    intro q hlen _ _
    cases q with
    | nil => decide
    | cons t qs => simp at hlen
  | cons s ps ih =>
    intro q hlen hp hq
    cases q with
    | nil => simp at hlen
    | cons t qs =>
      have hs := hp s (List.mem_cons_self s ps)
      have ht := hq t (List.mem_cons_self t qs)
      have hp' : ∀ x ∈ ps, ∀ c ∈ x.data, 0x23 ≤ c.val.toNat ∧ c ≠ '\\' :=
        fun x hx => hp x (List.mem_cons_of_mem _ hx)
      have hq' : ∀ x ∈ qs, ∀ c ∈ x.data, 0x23 ≤ c.val.toNat ∧ c ≠ '\\' :=
        fun x hx => hq x (List.mem_cons_of_mem _ hx)
      have hlen' : ps.length = qs.length := by simpa using hlen
      have hsge : ∀ n ∈ strUnits s, 0x23 ≤ n := strUnits_ge s fun c hc => (hs c hc).1
      have htge : ∀ n ∈ strUnits t, 0x23 ≤ n := strUnits_ge t fun c hc => (ht c hc).1
      cases ps with
      | nil =>
        cases qs with
        | cons q2 qs' => simp at hlen'
        | nil =>
          rw [show jsonItems [s] = quoteString s from rfl,
            show jsonItems [t] = quoteString t from rfl,
            strUnits_quote s hs, strUnits_quote t ht]
          simp only [List.cons_append, List.append_assoc, List.nil_append]
          rw [unitsLt_cons_same]
          by_cases htie : strUnits s = strUnits t
          · rw [htie, unitsLt_append_left, unitsLt_irrefl]
            simp [specPathLexLt, jsStrLt, htie, unitsLt_irrefl]
          · rw [unitsLt_sep (strUnits s) (strUnits t) _ _ hsge htge htie]
            rw [show unitsLt (strUnits s) (strUnits t) = jsStrLt s t from rfl]
            cases h : jsStrLt s t <;> simp [specPathLexLt, htie, h]
      | cons p2 ps' =>
        cases qs with
        | nil => simp at hlen'
        | cons q2 qs' =>
          rw [show jsonItems (s :: p2 :: ps') =
              quoteString s ++ "," ++ jsonItems (p2 :: ps') from rfl,
            show jsonItems (t :: q2 :: qs') =
              quoteString t ++ "," ++ jsonItems (q2 :: qs') from rfl]
          simp only [strUnits_append, strUnits_quote s hs, strUnits_quote t ht,
            show strUnits "," = [0x2C] from by decide]
          simp only [List.cons_append, List.append_assoc, List.nil_append]
          rw [unitsLt_cons_same]
          by_cases htie : strUnits s = strUnits t
          · rw [htie, unitsLt_append_left, unitsLt_cons_same, unitsLt_cons_same]
            rw [ih (q2 :: qs') hlen' hp' hq']
            simp [specPathLexLt, jsStrLt, htie, unitsLt_irrefl]
          · rw [unitsLt_sep (strUnits s) (strUnits t) _ _ hsge htge htie]
            rw [show unitsLt (strUnits s) (strUnits t) = jsStrLt s t from rfl]
            cases h : jsStrLt s t <;> simp [specPathLexLt, htie, h]

theorem strUnits_stringify (xs : List String) :
    strUnits (jsonStringify xs) = 0x5B :: (strUnits (jsonItems xs) ++ [0x5D]) := by
  simp only [jsonStringify]
  rw [strUnits_append, strUnits_append,
    show strUnits "[" = [0x5B] from by decide, show strUnits "]" = [0x5D] from by decide]
  simp

/-! ## Claim C4 (amended): order consistency on plain same-length arrays -/

/-- C4 as amended: for path arrays of equal length whose segments use only
plain characters (code point at least `0x23`, no backslash), the
serialization is order-consistent: `serialize(p) < serialize(q)` under
string ordering iff `p` precedes `q` in the lexicographic order of path
arrays.  (As stated the claim fails: array-prefix pairs and characters
below `'#'` break the correspondence.) -/
theorem serialization_order_plain (p q : List String) (hlen : p.length = q.length)
    (hp : ∀ s ∈ p, ∀ c ∈ s.data, 0x23 ≤ c.val.toNat ∧ c ≠ '\\')
    (hq : ∀ s ∈ q, ∀ c ∈ s.data, 0x23 ≤ c.val.toNat ∧ c ≠ '\\') :
    jsStrLt (jsonStringify p) (jsonStringify q) = specPathLexLt p q := by
  show unitsLt (strUnits (jsonStringify p)) (strUnits (jsonStringify q)) = _
  rw [strUnits_stringify, strUnits_stringify, unitsLt_cons_same]
  exact items_lt p q hlen hp hq

/-- Witness for C4 (amended) at a concrete input: `["b"]` versus `["c"]`. -/
theorem serialization_order_plain_witness :
    (["b"] : List String).length = (["c"] : List String).length ∧
    (∀ s ∈ (["b"] : List String), ∀ c ∈ s.data, 0x23 ≤ c.val.toNat ∧ c ≠ '\\') ∧
    (∀ s ∈ (["c"] : List String), ∀ c ∈ s.data, 0x23 ≤ c.val.toNat ∧ c ≠ '\\') ∧
    jsStrLt (jsonStringify ["b"]) (jsonStringify ["c"]) = specPathLexLt ["b"] ["c"] :=
  ⟨rfl, by decide, by decide,
   serialization_order_plain ["b"] ["c"] rfl (by decide) (by decide)⟩
